import Mathlib

/-!
Verification of the metric-visualization rendering logic and the latency
selection formatter of the reviewed Kibana sources.

JavaScript numbers are modelled as `Rat` (plus an explicit `JNum.nan` value
for NaN, which the metric component checks with lodash `isNaN`); JavaScript
objects used as string-keyed maps are modelled as ordered association lists
with overwrite-on-existing-key insertion; code that throws on out-of-range
accesses (e.g. reading `.from` of `colorsRange[0]` on an empty array, or
`.name` of an out-of-bounds column) is modelled with `Option`.
External collaborators that are not part of the reviewed sources
(getHeatmapColors, isColorDark, the field-format service and the duration
formatter) are passed in as function arguments, following the spec's
dependency-injection restatement.
-/

/-- A numeric range. The source fields are named `from` and `to`; `from` and `to` are
Lean keywords, so the fields are spelled `frm`/`toV` here. -/
structure Range where
  frm : Rat
  toV : Rat
deriving DecidableEq

instance : Inhabited Range := ⟨⟨0, 0⟩⟩

/-- A JavaScript number that is either NaN or a finite rational. -/
inductive JNum where
  | nan : JNum
  | val : Rat → JNum
deriving DecidableEq

/-- Lodash `isNaN` restricted to numbers: true exactly on NaN. -/
def JNum.isNaN : JNum → Bool
  | .nan => true
  | .val _ => false

/-- JS subtraction `value - min` with a finite right operand; NaN propagates. -/
def jsub : JNum → Rat → JNum
  | .nan, _ => .nan
  | .val x, q => .val (x - q)

/-- JS division by a finite divisor; NaN propagates. A zero divisor yields a
non-finite JS number (Infinity or NaN); it is modelled by the single
non-finite value here, and every theorem below that depends on the division
assumes a nonzero divisor. -/
def jdiv : JNum → Rat → JNum
  | .nan, _ => .nan
  | .val x, q => if q = 0 then .nan else .val (x / q)

/-- The predicate passed to lodash findIndex in getBucket:
`range.from <= val && range.toV > val`. Both comparisons are false on NaN. -/
def rangeMatches (v : JNum) (r : Range) : Bool :=
  match v with
  | .nan => false
  | .val x => decide (r.frm ≤ x) && decide (r.toV > x)

/-- Lodash `findIndex`, with `-1` rendered as `none`. -/
def findIndexFrom (p : Range → Bool) : List Range → Option Nat
  | [] => none
  | r :: rest => if p r then some 0 else (findIndexFrom p rest).map (· + 1)

/-- MetricVisComponent.getBucket: the index of the first range matching the
value, else 0 for values below the first range's `from`, else the last
index. On an empty colorsRange the source throws (it reads
`colorsRange[0].from`); that branch is given the junk value 0 and every
claim about getBucket assumes a nonempty colorsRange. -/
def getBucket (colorsRange : List Range) (v : JNum) : Nat :=
  match findIndexFrom (fun r => rangeMatches v r) colorsRange with
  | some i => i
  | none =>
    match colorsRange.head? with
    | some r0 =>
      match v with
      | .nan => colorsRange.length - 1
      | .val x => if x < r0.frm then 0 else colorsRange.length - 1
    | none => 0

/-- The label text of one range: `"{from} - {to}"`, with both bounds
rescaled to a rounded percentage of `max` in percentage mode. -/
def rangeLabel (isPercentageMode : Bool) (max : Rat) (range : Range) : String :=
  let f := if isPercentageMode then toString (round (100 * range.frm / max)) else toString range.frm
  let t := if isPercentageMode then toString (round (100 * range.toV / max)) else toString range.toV
  f ++ " - " ++ t

/-- MetricVisComponent.getLabels. The source reads `last(colorsRange).toV`
unconditionally, which throws on an empty colorsRange; hence the `Option`. -/
def getLabels (isPercentageMode : Bool) (colorsRange : List Range) : Option (List String) :=
  (colorsRange.getLast?).map (fun lastR => colorsRange.map (rangeLabel isPercentageMode lastR.toV))

/-- The ratio passed to getHeatmapColors for bucket `i` of `n`:
`i / divider` or `1 - i / divider` with `divider = max(n - 1, 1)`. -/
def colorRatio (invertColors : Bool) (n i : Nat) : Rat :=
  let divider : Nat := Nat.max (n - 1) 1
  if invertColors then 1 - (i : Rat) / (divider : Rat) else (i : Rat) / (divider : Rat)

/-- The sequence of assignments `colors[labels[i]] = getHeatmapColors(val, schema)`
performed by the getColors loop, in loop order, starting at index `i`. -/
def assignLoop (heatmap : Rat → String → String) (invertColors : Bool)
    (colorSchema : String) (n : Nat) : Nat → List String → List (String × String)
  | _, [] => []
  | i, label :: rest =>
    (label, heatmap (colorRatio invertColors n i) colorSchema) ::
      assignLoop heatmap invertColors colorSchema n (i + 1) rest

/-- Assignment to a string-keyed JS object: overwrite in place when the key
exists, append otherwise (insertion order is preserved). -/
def objInsert (obj : List (String × String)) (k v : String) : List (String × String) :=
  if obj.any (fun p => p.1 == k) then
    obj.map (fun p => if p.1 == k then (k, v) else p)
  else obj ++ [(k, v)]

/-- Replay a sequence of object assignments on the empty object. -/
def buildObj (asgn : List (String × String)) : List (String × String) :=
  asgn.foldl (fun obj kv => objInsert obj kv.1 kv.2) []

/-- Lookup in a string-keyed JS object, `none` for a missing key. -/
def objLookup (obj : List (String × String)) (k : String) : Option String :=
  match obj.find? (fun p => p.1 == k) with
  | some p => some p.2
  | none => none

/-- Style flags of the metric configuration. -/
structure Style where
  labelColor : Bool
  bgColor : Bool

/-- The metric configuration object (visParams.metric). -/
structure MetricConfig where
  percentageMode : Bool
  colorsRange : List Range
  invertColors : Bool
  colorSchema : String
  style : Style

/-- MetricVisComponent.getColors: one heatmap color per label, keyed by the
label text in a JS object. Fails (throws in the source) exactly when
getLabels does, i.e. on an empty colorsRange. -/
def getColors (heatmap : Rat → String → String) (config : MetricConfig) :
    Option (List (String × String)) :=
  (getLabels config.percentageMode config.colorsRange).map (fun labels =>
    buildObj (assignLoop heatmap config.invertColors config.colorSchema
      config.colorsRange.length 0 labels))

/-- MetricVisComponent.getColor: the color of a value's bucket,
`colors[labels[bucket]]`; `none` models the JS undefined. -/
def getColor (colorsRange : List Range) (labels : List String)
    (colors : List (String × String)) (val : JNum) : Option String :=
  match labels.get? (getBucket colorsRange val) with
  | some label => objLookup colors label
  | none => none

/-- ASCII whitespace, the fragment of the JS regex class \s that the
reviewed inputs use. -/
def isSpaceChar (c : Char) : Bool :=
  c = ' ' || c = '\t' || c = '\n' || c = '\r' || c = '\x0b' || c = '\x0c'

/-- Drop leading whitespace: the regex fragment \s* . -/
def skipWs (l : List Char) : List Char :=
  l.dropWhile isSpaceChar

/-- Match a literal character sequence at the head of the input. -/
def dropLit : List Char → List Char → Option (List Char)
  | [], l => some l
  | _ :: _, [] => none
  | p :: ps, c :: cs => if c = p then dropLit ps cs else none

/-- Match the regex fragment (\d+) greedily and interpret the digits in
base 10, as parseInt(c, 10) does on a captured digit run. -/
def grabNum (l : List Char) : Option (Nat × List Char) :=
  let ds := l.takeWhile Char.isDigit
  if ds.isEmpty then none
  else some (ds.foldl (fun n c => n * 10 + (c.toNat - 48)) 0, l.dropWhile Char.isDigit)

/-- Match the whole pattern rgb\(\s*(\d+)\s*,\s*(\d+)\s*,\s*(\d+)\s*\) at
the start of the input, returning the three captured components. The
character classes of the pattern are pairwise disjoint, so this greedy
deterministic parse agrees with the regex engine. -/
def matchRgbAt (l : List Char) : Option (Nat × Nat × Nat) := do
  let l1 ← dropLit "rgb(".toList l
  let (r, l2) ← grabNum (skipWs l1)
  let l3 ← dropLit [','] (skipWs l2)
  let (g, l4) ← grabNum (skipWs l3)
  let l5 ← dropLit [','] (skipWs l4)
  let (b, l6) ← grabNum (skipWs l5)
  let _ ← dropLit [')'] (skipWs l6)
  pure (r, g, b)

/-- RegExp.exec: try the pattern at each start position, leftmost first. -/
def rgbSearch : List Char → Option (Nat × Nat × Nat)
  | [] => none
  | c :: cs =>
    match matchRgbAt (c :: cs) with
    | some t => some t
    | none => rgbSearch cs

/-- MetricVisComponent.needsLightText: parse the background color with the
rgb pattern; on failure return false, otherwise delegate to the external
isColorDark collaborator on the three parsed components. -/
def needsLightText (isColorDark : Nat → Nat → Nat → Bool) (bgColor : String) : Bool :=
  match rgbSearch bgColor.toList with
  | none => false
  | some (r, g, b) => isColorDark r g b

/-- MetricVisComponent.getFormattedValue: NaN values render as the literal
"-" placeholder; every other value goes through the field formatter's
convert. -/
def getFormattedValue (fieldFormatter : JNum → String → String) (value : JNum)
    (format : String) : String :=
  if value.isNaN then "-" else fieldFormatter value format

/-- The triple produced by the duration-formatting collaborator.
Modelled from the spec: format(n) -> { value: number, unit: string,
formatted: string }; the collaborator itself (getDurationFormatter) is not
part of the reviewed sources. -/
structure DurationFmt where
  value : Rat
  unit : String
  formatted : String

/-- getFormattedSelection of the transaction-distribution tab: format both
endpoints, show `from.value` alone when the units agree, else
`from.formatted`; always end with `to.formatted`. -/
def getFormattedSelection (formatDuration : Rat → DurationFmt)
    (selection : Rat × Rat) : String :=
  let f := formatDuration selection.1
  let t := formatDuration selection.2
  (if f.unit = t.unit then toString f.value else f.formatted) ++ " - " ++ t.formatted

/-- A Datatable column: the id keys the rows, the name is the display title. -/
structure ColumnT where
  id : String
  name : String

/-- A Datatable row, as a total map from column ids to values (the reviewed
logic only reads ids that the table provides). -/
def RowT : Type := String → JNum

/-- A Datatable. -/
structure TableT where
  columns : List ColumnT
  rows : List RowT

/-- A dimension descriptor (SchemaConfig): a column accessor plus an opaque
serialized format handed to the format service. -/
structure SchemaConfig where
  accessor : Nat
  format : String

/-- visParams.dimensions: the metric dimensions and the optional bucket
dimension. -/
structure Dimensions where
  metrics : List SchemaConfig
  bucket : Option SchemaConfig

/-- One rendered metric descriptor (MetricVisMetric). `none` in the color
fields models the JS undefined. -/
structure MetricVisMetric where
  label : String
  value : String
  color : Option String
  bgColor : Option String
  lightText : Bool
  rowIndex : Nat
deriving DecidableEq

instance : Inhabited MetricVisMetric := ⟨⟨"", "", none, none, false, 0⟩⟩

/-- The body of the per-row forEach of processTableGroups, for one metric
dimension. `min`/`max` are the first range's `from` and the last range's
`to`; `bucketInfo` carries the bucket column id and bucket formatter when a
bucket dimension is configured. The source checks `if (bucketColumnId)`,
which is JS truthiness on the id string, so an empty id skips the title
prefix. -/
def processRow (config : MetricConfig) (isColorDark : Nat → Nat → Nat → Bool)
    (formatter : JNum → String → String)
    (bucketInfo : Option (String × (JNum → String → String)))
    (labels : List String) (colors : List (String × String)) (min max : Rat)
    (column : ColumnT) (rowIndex : Nat) (row : RowT) : MetricVisMetric :=
  let value := row column.id
  let colorOfVal := getColor config.colorsRange labels colors value
  let value1 := if config.percentageMode then jdiv (jsub value min) (max - min) else value
  let valueStr := getFormattedValue formatter value1 "html"
  let title :=
    match bucketInfo with
    | some (bucketColumnId, bucketFormatter) =>
      if bucketColumnId = "" then column.name
      else getFormattedValue bucketFormatter (row bucketColumnId) "text" ++ " - " ++ column.name
    | none => column.name
  let shouldColor : Bool := decide (1 < config.colorsRange.length)
  { label := title
    value := valueStr
    color := if shouldColor && config.style.labelColor then colorOfVal else none
    bgColor := if shouldColor && config.style.bgColor then colorOfVal else none
    lightText := shouldColor && config.style.bgColor
      && needsLightText isColorDark (colorOfVal.getD "undefined")
    rowIndex := rowIndex }

/-- The rows forEach: apply `g` to each row with its index, collecting the
results; fail as soon as one row fails (the JS loop throws there). -/
def rowsLoop (g : Nat → RowT → Option MetricVisMetric) :
    Nat → List RowT → Option (List MetricVisMetric)
  | _, [] => some []
  | i, row :: rest =>
    (g i row).bind (fun m => (rowsLoop g (i + 1) rest).map (fun ms => m :: ms))

/-- The metrics forEach: each metric dimension contributes a block of
descriptors, pushed onto one flat array in order. -/
def metricsLoop (f : SchemaConfig → Option (List MetricVisMetric)) :
    List SchemaConfig → Option (List MetricVisMetric)
  | [] => some []
  | metric :: rest =>
    (f metric).bind (fun ms => (metricsLoop f rest).map (fun rest2 => ms ++ rest2))

/-- The bucket-dimension setup of processTableGroups: when a bucket
dimension is present the source reads `table.columns[accessor].id` (which
throws on an out-of-bounds accessor, hence the outer `Option`) and
deserializes the bucket format. -/
def getBucketInfo (deserialize : String → JNum → String → String)
    (dimensions : Dimensions) (table : TableT) :
    Option (Option (String × (JNum → String → String))) :=
  match dimensions.bucket with
  | none => some none
  | some b => (table.columns.get? b.accessor).map (fun col => some (col.id, deserialize b.format))

/-- MetricVisComponent.processTableGroups. The column of a metric dimension
is fetched once per dimension but its `.name` is only read inside the row
loop, so an out-of-bounds metric accessor throws exactly when a row exists;
`rowsLoop` reproduces that by failing only when it visits a row. -/
def processTableGroups (heatmap : Rat → String → String)
    (isColorDark : Nat → Nat → Nat → Bool)
    (deserialize : String → JNum → String → String)
    (config : MetricConfig) (dimensions : Dimensions) (table : TableT) :
    Option (List MetricVisMetric) :=
  (config.colorsRange.head?).bind (fun r0 =>
  (config.colorsRange.getLast?).bind (fun rl =>
  (getColors heatmap config).bind (fun colors =>
  (getLabels config.percentageMode config.colorsRange).bind (fun labels =>
  (getBucketInfo deserialize dimensions table).bind (fun bucketInfo =>
    metricsLoop (fun metric =>
      rowsLoop (fun rowIndex row =>
        (table.columns.get? metric.accessor).map (fun column =>
          processRow config isColorDark (deserialize metric.format) bucketInfo
            labels colors r0.frm rl.toV column rowIndex row))
        0 table.rows)
      dimensions.metrics)))))

/-! ### Concrete example inputs used by the witnesses and counterexamples -/

/-- The spec's example range sequence. -/
def c1Ranges : List Range := [⟨0, 10⟩, ⟨10, 20⟩, ⟨20, 30⟩]

/-- A duration formatter whose unit depends on the size of the input,
used to exercise both branches of getFormattedSelection. -/
def exDurFmt : Rat → DurationFmt := fun q =>
  if q < 1000 then ⟨q, "us", toString q ++ "us"⟩
  else ⟨q / 1000, "ms", toString (q / 1000) ++ "ms"⟩

/-- A heatmap collaborator that renders the requested ratio, so that the
ratio passed to it is visible in the output. -/
def exHeat : Rat → String → String := fun r _ => toString r

/-- A field formatter (after deserialization) that renders the numeric
argument it receives, so that the value passed to it is visible. -/
def exDz : String → JNum → String → String := fun _ v _ =>
  match v with
  | .nan => "NaN"
  | .val q => toString q

/-- A darkness collaborator: dark iff the component sum is small. -/
def exDark : Nat → Nat → Nat → Bool := fun r g b => decide (r + g + b < 100)

/-- Percentage-mode configuration whose rounded percentage labels collide:
ranges 0-1 and 1-2 both round to the label "0 - 0" of maximum 1000. -/
def c5Config : MetricConfig :=
  { percentageMode := true, colorsRange := [⟨0, 1⟩, ⟨1, 2⟩, ⟨2, 1000⟩],
    invertColors := false, colorSchema := "Greens", style := ⟨true, true⟩ }

/-- A two-range configuration with distinct labels. -/
def c4Config : MetricConfig :=
  { percentageMode := false, colorsRange := [⟨0, 10⟩, ⟨10, 20⟩],
    invertColors := false, colorSchema := "Greens", style := ⟨true, true⟩ }

/-- The labels of c4Config. -/
def c4Labels : List String := (getLabels c4Config.percentageMode c4Config.colorsRange).getD []

/-- The labels of c5Config. -/
def c5Labels : List String := (getLabels c5Config.percentageMode c5Config.colorsRange).getD []

/-- Single-range percentage-mode configuration for the rescaling claims:
min 0, max 10. -/
def c6Config : MetricConfig :=
  { percentageMode := true, colorsRange := [⟨0, 10⟩],
    invertColors := false, colorSchema := "Greens", style := ⟨false, false⟩ }

/-- One metric dimension reading the first column. -/
def c6Dims : Dimensions := { metrics := [⟨0, "num"⟩], bucket := none }

/-- One column, one row holding the value 5. -/
def c6Table : TableT := { columns := [⟨"c", "Col"⟩], rows := [fun _ => .val 5] }

/-- Single-range configuration with both style color flags on, for the
color-gating claim. -/
def c9Config : MetricConfig :=
  { percentageMode := false, colorsRange := [⟨0, 10⟩],
    invertColors := false, colorSchema := "Greens", style := ⟨true, true⟩ }

/-- The output of processTableGroups on the color-gating example. -/
def c9Out : List MetricVisMetric :=
  (processTableGroups exHeat exDark exDz c9Config c6Dims c6Table).getD []

/-- The first descriptor of the color-gating example. -/
def c9Metric : MetricVisMetric := c9Out.headI

/-- Two metric dimensions over a two-row table, for the count/order claim. -/
def c10Dims : Dimensions := { metrics := [⟨0, "a"⟩, ⟨1, "b"⟩], bucket := none }

/-- Two columns and two rows holding 5 and 15. -/
def c10Table : TableT :=
  { columns := [⟨"c", "Col"⟩, ⟨"d", "Dol"⟩], rows := [fun _ => .val 5, fun _ => .val 15] }

/-- The output of processTableGroups on the count/order example. -/
def c10Out : List MetricVisMetric :=
  (processTableGroups exHeat exDark exDz c4Config c10Dims c10Table).getD []

/-- The output of processTableGroups on the percentage-rescaling example. -/
def c6Out : List MetricVisMetric :=
  (processTableGroups exHeat exDark exDz c6Config c6Dims c6Table).getD []

/-! ### Helper lemmas -/

section MetricVisVerification

attribute [local semireducible] Rat.add Rat.mul Rat.sub Rat.inv

theorem findIndexFrom_none (p : Range → Bool) :
    ∀ l : List Range, (∀ x ∈ l, p x = false) → findIndexFrom p l = none := by
  intro l
  induction l with
  | nil => intro _; rfl
  | cons a rest ih =>
    intro h
    have ha := h a (List.mem_cons_self a rest)
    simp [findIndexFrom, ha, ih (fun x hx => h x (List.mem_cons_of_mem a hx))]

theorem findIndexFrom_first (p : Range → Bool) :
    ∀ (l : List Range) (i : Nat) (hi : i < l.length),
      p (l.get ⟨i, hi⟩) = true →
      (∀ j (hj : j < l.length), j < i → p (l.get ⟨j, hj⟩) = false) →
      findIndexFrom p l = some i := by
  intro l
  induction l with
  | nil => intro i hi; simp at hi
  | cons a rest ih =>
    intro i hi hp hfirst
    cases i with
    | zero =>
      simp only [List.get] at hp
      simp [findIndexFrom, hp]
    | succ k =>
      have ha : p a = false := hfirst 0 (by omega) (by omega)
      have hk : k < rest.length := by
        simpa using Nat.lt_of_succ_lt_succ hi
      have hp2 : p (rest.get ⟨k, hk⟩) = true := by
        simpa using hp
      have hfirst2 : ∀ j (hj : j < rest.length), j < k → p (rest.get ⟨j, hj⟩) = false := by
        intro j hj hjk
        have := hfirst (j + 1) (by simpa using Nat.succ_lt_succ hj) (Nat.succ_lt_succ hjk)
        simpa using this
      simp [findIndexFrom, ha, ih k hk hp2 hfirst2]

/-! ### Claim theorems -/

/-- C8: getFormattedValue renders a NaN value as the literal "-" for every
field formatter (so convert is never consulted for NaN), and returns the
formatter's convert output on every non-NaN value. -/
theorem getFormattedValue_nan_dash (fieldFormatter : JNum → String → String)
    (value : JNum) (format : String) :
    (value.isNaN = true → getFormattedValue fieldFormatter value format = "-")
    ∧ (value.isNaN = false →
        getFormattedValue fieldFormatter value format = fieldFormatter value format) := by
  constructor <;> intro h <;> simp [getFormattedValue, h]

/-- Witness for C8 at a NaN input and at the value 3. -/
theorem getFormattedValue_nan_dash_witness :
    getFormattedValue (fun _ _ => "X") JNum.nan "text" = "-"
    ∧ getFormattedValue (fun _ _ => "X") (JNum.val 3) "text" = "X" :=
  ⟨(getFormattedValue_nan_dash (fun _ _ => "X") JNum.nan "text").1 rfl,
   (getFormattedValue_nan_dash (fun _ _ => "X") (JNum.val 3) "text").2 rfl⟩

/-- C2: getFormattedSelection formats both endpoints through the duration
collaborator; with equal units the output is "{from.value} - {to.formatted}"
(the unit appearing only through to.formatted), otherwise it is
"{from.formatted} - {to.formatted}". -/
theorem getFormattedSelection_unit_once (formatDuration : Rat → DurationFmt) (x y : Rat) :
    ((formatDuration x).unit = (formatDuration y).unit →
      getFormattedSelection formatDuration (x, y)
        = toString (formatDuration x).value ++ " - " ++ (formatDuration y).formatted)
    ∧ ((formatDuration x).unit ≠ (formatDuration y).unit →
      getFormattedSelection formatDuration (x, y)
        = (formatDuration x).formatted ++ " - " ++ (formatDuration y).formatted) := by
  constructor <;> intro h <;> simp [getFormattedSelection, h]

/-- Witness for C2: equal units collapse (1200 and 1500 both format to ms),
distinct units do not (12 formats to us, 1500000 to ms). -/
theorem getFormattedSelection_unit_once_witness :
    getFormattedSelection exDurFmt (1200000, 1500000) = "1200 - 1500ms"
    ∧ getFormattedSelection exDurFmt (12, 1500000) = "12us - 1500ms" := by
  constructor
  · exact ((getFormattedSelection_unit_once exDurFmt 1200000 1500000).1 (by decide)).trans
      (by decide)
  · exact ((getFormattedSelection_unit_once exDurFmt 12 1500000).2 (by decide)).trans
      (by decide)

/-- C7: needsLightText is false on every string the rgb pattern does not
match, for every darkness collaborator; on a matching string it returns
exactly the collaborator's judgment on the three parsed components. -/
theorem needsLightText_gate (isColorDark : Nat → Nat → Nat → Bool) (bgColor : String) :
    (rgbSearch bgColor.toList = none → needsLightText isColorDark bgColor = false)
    ∧ (∀ r g b : Nat, rgbSearch bgColor.toList = some (r, g, b) →
        needsLightText isColorDark bgColor = isColorDark r g b) := by
  constructor
  · intro h
    have h2 : rgbSearch bgColor.data = none := h
    simp [needsLightText, h2]
  · intro r g b h
    have h2 : rgbSearch bgColor.data = some (r, g, b) := h
    simp [needsLightText, h2]

/-- Witness for C7: a hex string yields false even for the constantly-dark
collaborator, and a matching rgb string is judged on its components. -/
theorem needsLightText_gate_witness :
    needsLightText (fun _ _ _ => true) "#aabbcc" = false
    ∧ needsLightText exDark "rgb(10, 20, 30)" = true := by
  constructor
  · exact (needsLightText_gate (fun _ _ _ => true) "#aabbcc").1 (by decide)
  · exact ((needsLightText_gate exDark "rgb(10, 20, 30)").2 10 20 30 (by decide)).trans
      (by decide)

/-- C3: getLabels yields exactly one label per range, the i-th being
"{from} - {to}" of the i-th range, with both bounds replaced by
round(100 * bound / max) in percentage mode, where max is the last range's
upper bound. -/
theorem getLabels_shape (isPercentageMode : Bool) (colorsRange : List Range)
    (lastR : Range) (labels : List String)
    (hlast : colorsRange.getLast? = some lastR)
    (h : getLabels isPercentageMode colorsRange = some labels) :
    labels.length = colorsRange.length
    ∧ ∀ i (hi : i < labels.length) (hi2 : i < colorsRange.length),
        labels.get ⟨i, hi⟩ =
          (if isPercentageMode
            then toString (round (100 * (colorsRange.get ⟨i, hi2⟩).frm / lastR.toV))
            else toString (colorsRange.get ⟨i, hi2⟩).frm)
          ++ " - " ++
          (if isPercentageMode
            then toString (round (100 * (colorsRange.get ⟨i, hi2⟩).toV / lastR.toV))
            else toString (colorsRange.get ⟨i, hi2⟩).toV) := by
  unfold getLabels at h
  rw [hlast] at h
  simp only [Option.map_some', Option.some.injEq] at h
  subst h
  refine ⟨List.length_map _ _, ?_⟩
  intro i hi hi2
  simp [List.getElem_map, rangeLabel]

/-- Witness for C3 on the percentage-mode configuration c5Config
(maximum bound 1000): the middle range 1-2 is labelled "0 - 0". -/
theorem getLabels_shape_witness :
    c5Labels.length = 3 ∧ c5Labels.get ⟨1, by decide⟩ = "0 - 0" := by
  have h := getLabels_shape c5Config.percentageMode c5Config.colorsRange ⟨2, 1000⟩
    c5Labels rfl rfl
  exact ⟨h.1.trans (by decide), (h.2 1 (by decide) (by decide)).trans (by decide)⟩

theorem assignLoop_length (heatmap : Rat → String → String) (inv : Bool) (sch : String)
    (n : Nat) : ∀ (labels : List String) (start : Nat),
    (assignLoop heatmap inv sch n start labels).length = labels.length := by
  intro labels
  induction labels with
  | nil => intro start; rfl
  | cons a rest ih => intro start; simp [assignLoop, ih]

theorem assignLoop_get (heatmap : Rat → String → String) (inv : Bool) (sch : String)
    (n : Nat) : ∀ (labels : List String) (start : Nat) (i : Nat)
    (hi : i < (assignLoop heatmap inv sch n start labels).length) (hi2 : i < labels.length),
    (assignLoop heatmap inv sch n start labels).get ⟨i, hi⟩
      = (labels.get ⟨i, hi2⟩, heatmap (colorRatio inv n (start + i)) sch) := by
  intro labels
  induction labels with
  | nil => intro start i hi hi2; simp at hi2
  | cons a rest ih =>
    intro start i hi hi2
    cases i with
    | zero => simp [assignLoop]
    | succ k =>
      have hk : k < (assignLoop heatmap inv sch n (start + 1) rest).length := by
        simpa [assignLoop] using hi
      have hk2 : k < rest.length := by simpa using hi2
      have harith : start + (k + 1) = (start + 1) + k := by omega
      rw [harith]
      simpa [assignLoop] using ih (start + 1) k hk hk2

/-- C4: getColors builds its object from one assignment per label; the i-th
assignment writes, under the i-th label, the heatmap color of the ratio
i / divider (or 1 - i / divider with the invert flag) where
divider = max(n - 1, 1); the divider is positive for every configuration,
equals 1 when n = 1 (so a single range never divides by zero), and equals
n - 1 when n > 1. -/
theorem getColors_ratio (heatmap : Rat → String → String) (config : MetricConfig)
    (labels : List String)
    (h : getLabels config.percentageMode config.colorsRange = some labels) :
    getColors heatmap config
      = some (buildObj (assignLoop heatmap config.invertColors config.colorSchema
          config.colorsRange.length 0 labels))
    ∧ (assignLoop heatmap config.invertColors config.colorSchema
        config.colorsRange.length 0 labels).length = labels.length
    ∧ (∀ i (hi : i < (assignLoop heatmap config.invertColors config.colorSchema
          config.colorsRange.length 0 labels).length) (hi2 : i < labels.length),
        (assignLoop heatmap config.invertColors config.colorSchema
          config.colorsRange.length 0 labels).get ⟨i, hi⟩
          = (labels.get ⟨i, hi2⟩,
             heatmap
               (if config.invertColors
                 then 1 - (i : Rat) / ((Nat.max (config.colorsRange.length - 1) 1 : Nat) : Rat)
                 else (i : Rat) / ((Nat.max (config.colorsRange.length - 1) 1 : Nat) : Rat))
               config.colorSchema))
    ∧ 0 < Nat.max (config.colorsRange.length - 1) 1
    ∧ (config.colorsRange.length = 1 → Nat.max (config.colorsRange.length - 1) 1 = 1)
    ∧ (1 < config.colorsRange.length →
        Nat.max (config.colorsRange.length - 1) 1 = config.colorsRange.length - 1) := by
  refine ⟨?_, assignLoop_length _ _ _ _ _ _, ?_, ?_, ?_, ?_⟩
  · unfold getColors
    rw [h]
    rfl
  · intro i hi hi2
    rw [assignLoop_get heatmap config.invertColors config.colorSchema
      config.colorsRange.length labels 0 i hi hi2]
    simp [colorRatio]
  · exact Nat.lt_of_lt_of_le Nat.zero_lt_one (Nat.le_max_right _ _)
  · intro h1; rw [h1]; rfl
  · intro h1
    exact Nat.max_eq_left (by omega)

/-- Witness for C4 on the two-range configuration c4Config: the second
assignment pairs the label "10 - 20" with the heatmap color of ratio
1 / max(2 - 1, 1) = 1. -/
theorem getColors_ratio_witness :
    (assignLoop exHeat c4Config.invertColors c4Config.colorSchema
      c4Config.colorsRange.length 0 c4Labels).get ⟨1, by decide⟩ = ("10 - 20", "1")
    ∧ Nat.max (c4Config.colorsRange.length - 1) 1 = 1 := by
  have h := getColors_ratio exHeat c4Config c4Labels rfl
  constructor
  · exact (h.2.2.1 1 (by decide) (by decide)).trans (by decide)
  · exact h.2.2.2.2.2 (by decide)

/-- C1: on an ordered, non-overlapping range sequence, getBucket returns
the index of the first (hence unique) range with from <= v and to > v;
when no range matches, it returns 0 for v below the first range's lower
bound and the last index otherwise. -/
theorem getBucket_scan_clamp (R : List Range) (r0 : Range) (v : Rat)
    (hord : R.Pairwise (fun a b => a.toV ≤ b.frm))
    (hhead : R.head? = some r0) :
    (∀ i (hi : i < R.length),
        (R.get ⟨i, hi⟩).frm ≤ v → v < (R.get ⟨i, hi⟩).toV →
        getBucket R (JNum.val v) = i)
    ∧ ((∀ i (hi : i < R.length),
          ¬((R.get ⟨i, hi⟩).frm ≤ v ∧ v < (R.get ⟨i, hi⟩).toV)) →
        (v < r0.frm → getBucket R (JNum.val v) = 0)
        ∧ (¬ v < r0.frm → getBucket R (JNum.val v) = R.length - 1)) := by
  constructor
  · intro i hi h1 h2
    have hmatch : rangeMatches (JNum.val v) (R.get ⟨i, hi⟩) = true := by
      simp only [rangeMatches, Bool.and_eq_true, decide_eq_true_eq]
      exact ⟨h1, h2⟩
    have hfirst : ∀ j (hj : j < R.length), j < i →
        rangeMatches (JNum.val v) (R.get ⟨j, hj⟩) = false := by
      intro j hj hji
      have hle : (R.get ⟨j, hj⟩).toV ≤ (R.get ⟨i, hi⟩).frm :=
        List.pairwise_iff_get.mp hord ⟨j, hj⟩ ⟨i, hi⟩ hji
      have hnv : ¬ ((R.get ⟨j, hj⟩).toV > v) := not_lt.mpr (le_trans hle h1)
      simp only [rangeMatches, Bool.and_eq_false_iff, decide_eq_false_iff_not]
      exact Or.inr hnv
    have hfi : findIndexFrom (fun r => rangeMatches (JNum.val v) r) R = some i :=
      findIndexFrom_first _ R i hi hmatch hfirst
    unfold getBucket
    rw [hfi]
  · intro hno
    have hfalse : ∀ x ∈ R, rangeMatches (JNum.val v) x = false := by
      intro x hx
      obtain ⟨⟨i, hi⟩, rfl⟩ := List.mem_iff_get.mp hx
      have := hno i hi
      simp only [rangeMatches, Bool.and_eq_false_iff, decide_eq_false_iff_not]
      tauto
    have hfi : findIndexFrom (fun r => rangeMatches (JNum.val v) r) R = none :=
      findIndexFrom_none _ R hfalse
    constructor
    · intro hv
      unfold getBucket
      rw [hfi, hhead]
      simp [hv]
    · intro hv
      unfold getBucket
      rw [hfi, hhead]
      simp [hv]

/-- Witness for C1 at the spec's example ranges: the in-domain value 25
falls in bucket 2 and the out-of-domain value -5 clamps to bucket 0. -/
theorem getBucket_scan_clamp_witness :
    getBucket c1Ranges (JNum.val 25) = 2 ∧ getBucket c1Ranges (JNum.val (-5)) = 0 := by
  have hord : c1Ranges.Pairwise (fun a b => a.toV ≤ b.frm) := by decide
  constructor
  · exact (getBucket_scan_clamp c1Ranges ⟨0, 10⟩ 25 hord rfl).1 2 (by decide)
      (by decide) (by decide)
  · exact ((getBucket_scan_clamp c1Ranges ⟨0, 10⟩ (-5) hord rfl).2 (by decide)).1 (by decide)

theorem objInsert_fst (obj : List (String × String)) (k v : String) :
    (objInsert obj k v).map Prod.fst
      = if k ∈ obj.map Prod.fst then obj.map Prod.fst else obj.map Prod.fst ++ [k] := by
  unfold objInsert
  by_cases hmem : k ∈ obj.map Prod.fst
  · have hany : obj.any (fun p => p.1 == k) = true := by
      rw [List.any_eq_true]
      obtain ⟨p, hp, hpk⟩ := List.mem_map.mp hmem
      exact ⟨p, hp, by simp [hpk]⟩
    rw [if_pos hmem]
    simp only [hany, if_true]
    rw [List.map_map]
    apply List.map_congr_left
    intro p _
    by_cases hb : p.1 = k
    · simp [hb]
    · simp [hb]
  · have hany : obj.any (fun p => p.1 == k) = false := by
      apply List.any_eq_false.mpr
      intro p hp hcon
      exact hmem (List.mem_map.mpr ⟨p, hp, eq_of_beq hcon⟩)
    rw [if_neg hmem]
    simp only [hany]
    simp

theorem buildObjAux_keys :
    ∀ (asgn obj : List (String × String)),
      (((asgn.foldl (fun o kv => objInsert o kv.1 kv.2) obj).map Prod.fst).toFinset
        = (obj.map Prod.fst).toFinset ∪ (asgn.map Prod.fst).toFinset)
      ∧ ((obj.map Prod.fst).Nodup →
          ((asgn.foldl (fun o kv => objInsert o kv.1 kv.2) obj).map Prod.fst).Nodup) := by
  intro asgn
  induction asgn with
  | nil => intro obj; simp
  | cons kv rest ih =>
    intro obj
    simp only [List.foldl_cons, List.map_cons, List.toFinset_cons]
    have hins := objInsert_fst obj kv.1 kv.2
    constructor
    · rw [(ih (objInsert obj kv.1 kv.2)).1, hins]
      by_cases hmem : kv.1 ∈ obj.map Prod.fst
      · rw [if_pos hmem]
        ext a
        simp only [Finset.mem_union, Finset.mem_insert, List.mem_toFinset]
        constructor
        · rintro (h | h)
          · exact Or.inl h
          · exact Or.inr (Or.inr h)
        · rintro (h | h | h)
          · exact Or.inl h
          · exact Or.inl (by rw [h]; exact hmem)
          · exact Or.inr h
      · rw [if_neg hmem, List.toFinset_append]
        ext a
        simp only [Finset.mem_union, Finset.mem_insert, List.mem_toFinset,
          List.toFinset_cons, List.toFinset_nil, Finset.mem_singleton,
          Finset.not_mem_empty, or_false]
        tauto
    · intro hnd
      apply (ih (objInsert obj kv.1 kv.2)).2
      rw [hins]
      by_cases hmem : kv.1 ∈ obj.map Prod.fst
      · rw [if_pos hmem]; exact hnd
      · rw [if_neg hmem]
        simp [List.nodup_append, hnd, hmem]

theorem buildObj_length (asgn : List (String × String)) :
    (buildObj asgn).length = (asgn.map Prod.fst).dedup.length := by
  have h := buildObjAux_keys asgn []
  have hnd : ((buildObj asgn).map Prod.fst).Nodup := h.2 (by simp)
  have htf : ((buildObj asgn).map Prod.fst).toFinset = (asgn.map Prod.fst).toFinset := by
    simpa [buildObj] using h.1
  calc (buildObj asgn).length
      = ((buildObj asgn).map Prod.fst).length := (List.length_map _ _).symm
    _ = ((buildObj asgn).map Prod.fst).dedup.length := by rw [List.Nodup.dedup hnd]
    _ = ((buildObj asgn).map Prod.fst).toFinset.card := (List.card_toFinset _).symm
    _ = (asgn.map Prod.fst).toFinset.card := by rw [htf]
    _ = (asgn.map Prod.fst).dedup.length := List.card_toFinset _

theorem assignLoop_fst (heatmap : Rat → String → String) (inv : Bool) (sch : String)
    (n : Nat) : ∀ (labels : List String) (start : Nat),
    (assignLoop heatmap inv sch n start labels).map Prod.fst = labels := by
  intro labels
  induction labels with
  | nil => intro start; rfl
  | cons a rest ih => intro start; simp [assignLoop, ih]

/-- C5 fails as stated: on the percentage-mode configuration c5Config the
three ranges round to only two distinct labels ("0 - 0" twice), so the
colors object holds 2 entries while there are 3 labels and 3 ranges. -/
theorem labels_colors_count_counterexample :
    (getColors exHeat c5Config).map List.length = some 2
    ∧ (getLabels c5Config.percentageMode c5Config.colorsRange).map List.length = some 3
    ∧ c5Config.colorsRange.length = 3 := by
  refine ⟨?_, ?_, ?_⟩ <;> decide

/-- C5 amended: the label count always equals the range count, and the
colors object has one entry per distinct label (a later assignment under an
equal label overwrites an earlier one); all three counts coincide exactly
when the labels are pairwise distinct. -/
theorem labels_colors_count_amended (heatmap : Rat → String → String)
    (config : MetricConfig) (labels : List String) (colors : List (String × String))
    (hl : getLabels config.percentageMode config.colorsRange = some labels)
    (hc : getColors heatmap config = some colors) :
    labels.length = config.colorsRange.length
    ∧ colors.length = labels.dedup.length
    ∧ (labels.Nodup → colors.length = config.colorsRange.length) := by
  have hlen : labels.length = config.colorsRange.length := by
    unfold getLabels at hl
    cases hlast : config.colorsRange.getLast? with
    | none => rw [hlast] at hl; simp at hl
    | some lastR =>
      rw [hlast] at hl
      simp only [Option.map_some', Option.some.injEq] at hl
      rw [← hl]
      exact List.length_map _ _
  have hcolors : colors = buildObj (assignLoop heatmap config.invertColors
      config.colorSchema config.colorsRange.length 0 labels) := by
    unfold getColors at hc
    rw [hl] at hc
    simp only [Option.map_some', Option.some.injEq] at hc
    exact hc.symm
  have hcnt : colors.length = labels.dedup.length := by
    rw [hcolors, buildObj_length, assignLoop_fst]
  exact ⟨hlen, hcnt, fun hnd => by rw [hcnt, List.Nodup.dedup hnd, hlen]⟩

/-- Witness for the amended C5 on c4Config: two ranges, two distinct
labels, hence two color entries. -/
theorem labels_colors_count_amended_witness :
    (buildObj (assignLoop exHeat c4Config.invertColors c4Config.colorSchema
      c4Config.colorsRange.length 0 c4Labels)).length = 2 := by
  have h := labels_colors_count_amended exHeat c4Config c4Labels
    (buildObj (assignLoop exHeat c4Config.invertColors c4Config.colorSchema
      c4Config.colorsRange.length 0 c4Labels)) rfl rfl
  exact (h.2.2 (by decide)).trans (by decide)

theorem processRow_rowIndex (config : MetricConfig) (isColorDark : Nat → Nat → Nat → Bool)
    (formatter : JNum → String → String)
    (bucketInfo : Option (String × (JNum → String → String)))
    (labels : List String) (colors : List (String × String)) (mn mx : Rat)
    (column : ColumnT) (rowIndex : Nat) (row : RowT) :
    (processRow config isColorDark formatter bucketInfo labels colors mn mx
      column rowIndex row).rowIndex = rowIndex := rfl

theorem processRow_color (config : MetricConfig) (isColorDark : Nat → Nat → Nat → Bool)
    (formatter : JNum → String → String)
    (bucketInfo : Option (String × (JNum → String → String)))
    (labels : List String) (colors : List (String × String)) (mn mx : Rat)
    (column : ColumnT) (rowIndex : Nat) (row : RowT) :
    (processRow config isColorDark formatter bucketInfo labels colors mn mx
      column rowIndex row).color
      = if decide (1 < config.colorsRange.length) && config.style.labelColor
          then getColor config.colorsRange labels colors (row column.id) else none := rfl

theorem processRow_bgColor (config : MetricConfig) (isColorDark : Nat → Nat → Nat → Bool)
    (formatter : JNum → String → String)
    (bucketInfo : Option (String × (JNum → String → String)))
    (labels : List String) (colors : List (String × String)) (mn mx : Rat)
    (column : ColumnT) (rowIndex : Nat) (row : RowT) :
    (processRow config isColorDark formatter bucketInfo labels colors mn mx
      column rowIndex row).bgColor
      = if decide (1 < config.colorsRange.length) && config.style.bgColor
          then getColor config.colorsRange labels colors (row column.id) else none := rfl

theorem processRow_lightText (config : MetricConfig) (isColorDark : Nat → Nat → Nat → Bool)
    (formatter : JNum → String → String)
    (bucketInfo : Option (String × (JNum → String → String)))
    (labels : List String) (colors : List (String × String)) (mn mx : Rat)
    (column : ColumnT) (rowIndex : Nat) (row : RowT) :
    (processRow config isColorDark formatter bucketInfo labels colors mn mx
      column rowIndex row).lightText
      = (decide (1 < config.colorsRange.length) && config.style.bgColor
          && needsLightText isColorDark
            ((getColor config.colorsRange labels colors (row column.id)).getD "undefined")) := rfl

theorem processRow_value (config : MetricConfig) (isColorDark : Nat → Nat → Nat → Bool)
    (formatter : JNum → String → String)
    (bucketInfo : Option (String × (JNum → String → String)))
    (labels : List String) (colors : List (String × String)) (mn mx : Rat)
    (column : ColumnT) (rowIndex : Nat) (row : RowT) :
    (processRow config isColorDark formatter bucketInfo labels colors mn mx
      column rowIndex row).value
      = getFormattedValue formatter
          (if config.percentageMode
            then jdiv (jsub (row column.id) mn) (mx - mn) else row column.id) "html" := rfl

theorem rowsLoop_spec {g : Nat → RowT → Option MetricVisMetric} :
    ∀ (rows : List RowT) (i : Nat) (out : List MetricVisMetric),
      rowsLoop g i rows = some out →
      out.length = rows.length
      ∧ ∀ k (hk : k < rows.length) (hk2 : k < out.length),
          g (i + k) (rows.get ⟨k, hk⟩) = some (out.get ⟨k, hk2⟩) := by
  intro rows
  induction rows with
  | nil =>
    intro i out h
    simp only [rowsLoop, Option.some.injEq] at h
    subst h
    exact ⟨rfl, fun k hk => by simp at hk⟩
  | cons row rest ih =>
    intro i out h
    simp only [rowsLoop, Option.bind_eq_some, Option.map_eq_some'] at h
    obtain ⟨m, hm, ms, hms, rfl⟩ := h
    obtain ⟨hlen, hget⟩ := ih (i + 1) ms hms
    refine ⟨by simp [hlen], ?_⟩
    intro k hk hk2
    cases k with
    | zero => simpa using hm
    | succ k2 =>
      have hk' : k2 < rest.length := by simpa using hk
      have hk2' : k2 < ms.length := by simpa using hk2
      have hrec := hget k2 hk' hk2'
      have harith : i + (k2 + 1) = (i + 1) + k2 := by omega
      rw [harith]
      simpa using hrec

theorem rowsLoop_mem {g : Nat → RowT → Option MetricVisMetric} :
    ∀ (rows : List RowT) (i : Nat) (out : List MetricVisMetric),
      rowsLoop g i rows = some out →
      ∀ x ∈ out, ∃ j row, row ∈ rows ∧ g j row = some x := by
  intro rows
  induction rows with
  | nil =>
    intro i out h x hx
    simp only [rowsLoop, Option.some.injEq] at h
    subst h
    simp at hx
  | cons row rest ih =>
    intro i out h x hx
    simp only [rowsLoop, Option.bind_eq_some, Option.map_eq_some'] at h
    obtain ⟨m, hm, ms, hms, rfl⟩ := h
    rcases List.mem_cons.mp hx with rfl | hx2
    · exact ⟨i, row, List.mem_cons_self _ _, hm⟩
    · obtain ⟨j, row2, hrow2, hj⟩ := ih (i + 1) ms hms x hx2
      exact ⟨j, row2, List.mem_cons_of_mem _ hrow2, hj⟩

theorem metricsLoop_spec {f : SchemaConfig → Option (List MetricVisMetric)} {R : Nat}
    (hf : ∀ m l, f m = some l → l.length = R
      ∧ ∀ k (hk : k < l.length), (l.get ⟨k, hk⟩).rowIndex = k) :
    ∀ (ms : List SchemaConfig) (out : List MetricVisMetric),
      metricsLoop f ms = some out →
      out.length = ms.length * R
      ∧ ∀ k (hk : k < out.length), (out.get ⟨k, hk⟩).rowIndex = k % R := by
  intro ms
  induction ms with
  | nil =>
    intro out h
    simp only [metricsLoop, Option.some.injEq] at h
    subst h
    exact ⟨by simp, fun k hk => by simp at hk⟩
  | cons metric rest ih =>
    intro out h
    simp only [metricsLoop, Option.bind_eq_some, Option.map_eq_some'] at h
    obtain ⟨l, hl, rest2, hrest2, rfl⟩ := h
    obtain ⟨hlen1, hidx1⟩ := hf metric l hl
    obtain ⟨hlen2, hidx2⟩ := ih rest2 hrest2
    constructor
    · simp only [List.length_append, hlen1, hlen2, List.length_cons]
      ring
    · intro k hk
      by_cases hkl : k < l.length
      · rw [List.get_eq_getElem, List.getElem_append_left hkl]
        exact (hidx1 k hkl).trans (Nat.mod_eq_of_lt (hlen1 ▸ hkl)).symm
      · have hge : l.length ≤ k := Nat.le_of_not_lt hkl
        have hk2 : k - l.length < rest2.length := by
          have hlen := hk
          simp only [List.length_append] at hlen
          omega
        rw [List.get_eq_getElem, List.getElem_append_right hge]
        have hmod : k % R = (k - l.length) % R := by
          rw [hlen1]
          exact Nat.mod_eq_sub_mod (hlen1 ▸ hge)
        exact (hidx2 (k - l.length) hk2).trans hmod.symm

theorem metricsLoop_mem {f : SchemaConfig → Option (List MetricVisMetric)} :
    ∀ (ms : List SchemaConfig) (out : List MetricVisMetric),
      metricsLoop f ms = some out →
      ∀ x ∈ out, ∃ m, m ∈ ms ∧ ∃ l, f m = some l ∧ x ∈ l := by
  intro ms
  induction ms with
  | nil =>
    intro out h x hx
    simp only [metricsLoop, Option.some.injEq] at h
    subst h
    simp at hx
  | cons metric rest ih =>
    intro out h x hx
    simp only [metricsLoop, Option.bind_eq_some, Option.map_eq_some'] at h
    obtain ⟨l, hl, rest2, hrest2, rfl⟩ := h
    rcases List.mem_append.mp hx with hx1 | hx2
    · exact ⟨metric, List.mem_cons_self _ _, l, hl, hx1⟩
    · obtain ⟨m, hm, l2, hl2, hxl2⟩ := ih rest2 hrest2 x hx2
      exact ⟨m, List.mem_cons_of_mem _ hm, l2, hl2, hxl2⟩

/-- C10: processTableGroups yields exactly one descriptor per
(metric dimension, row) pair, metric-major: the output length is
metrics * rows, the descriptor at flat position k carries rowIndex
k mod rows, and in particular the descriptor at block position
m * rows + r carries the index r of the row it was produced from. -/
theorem processTableGroups_count_order (heatmap : Rat → String → String)
    (isColorDark : Nat → Nat → Nat → Bool)
    (deserialize : String → JNum → String → String)
    (config : MetricConfig) (dims : Dimensions) (table : TableT)
    (out : List MetricVisMetric)
    (h : processTableGroups heatmap isColorDark deserialize config dims table = some out) :
    out.length = dims.metrics.length * table.rows.length
    ∧ (∀ k (hk : k < out.length),
        (out.get ⟨k, hk⟩).rowIndex = k % table.rows.length)
    ∧ (∀ m r (hk : m * table.rows.length + r < out.length), r < table.rows.length →
        (out.get ⟨m * table.rows.length + r, hk⟩).rowIndex = r) := by
  unfold processTableGroups at h
  simp only [Option.bind_eq_some] at h
  obtain ⟨r0, hr0, rl, hrl, colors, hcolors, labels, hlabels, bucketInfo, hbi, hloop⟩ := h
  have hf : ∀ (metric : SchemaConfig) (l : List MetricVisMetric),
      rowsLoop (fun rowIndex row =>
        (table.columns.get? metric.accessor).map (fun column =>
          processRow config isColorDark (deserialize metric.format) bucketInfo
            labels colors r0.frm rl.toV column rowIndex row)) 0 table.rows = some l →
      l.length = table.rows.length
      ∧ ∀ k (hk : k < l.length), (l.get ⟨k, hk⟩).rowIndex = k := by
    intro metric l hl
    obtain ⟨hlen, hget⟩ := rowsLoop_spec table.rows 0 l hl
    refine ⟨hlen, ?_⟩
    intro k hk2
    have hk : k < table.rows.length := hlen ▸ hk2
    have hrow := hget k hk hk2
    simp only [Option.map_eq_some'] at hrow
    obtain ⟨column, _, hcol⟩ := hrow
    rw [← hcol, processRow_rowIndex]
    omega
  obtain ⟨hlen, hmod⟩ := metricsLoop_spec hf dims.metrics out hloop
  refine ⟨hlen, hmod, ?_⟩
  intro m r hk hr
  rw [hmod _ hk, Nat.add_comm, Nat.add_mul_mod_self_right, Nat.mod_eq_of_lt hr]

/-- Witness for C10 on a 2-metric, 2-row table: 4 descriptors and the last
one carries rowIndex 1. -/
theorem processTableGroups_count_order_witness :
    c10Out.length = 4 ∧ (c10Out.get ⟨3, by decide⟩).rowIndex = 1 := by
  have h : processTableGroups exHeat exDark exDz c4Config c10Dims c10Table = some c10Out := rfl
  have hspec := processTableGroups_count_order exHeat exDark exDz c4Config c10Dims
    c10Table c10Out h
  exact ⟨hspec.1.trans (by decide), (hspec.2.1 3 (by decide)).trans (by decide)⟩

/-- C9: with at most one range every descriptor has color and bgColor unset
and lightText false, whatever the style flags; conversely a set color
(resp. bgColor) requires more than one range and the labelColor
(resp. bgColor) style flag. -/
theorem processTableGroups_color_gating (heatmap : Rat → String → String)
    (isColorDark : Nat → Nat → Nat → Bool)
    (deserialize : String → JNum → String → String)
    (config : MetricConfig) (dims : Dimensions) (table : TableT)
    (out : List MetricVisMetric)
    (h : processTableGroups heatmap isColorDark deserialize config dims table = some out)
    (x : MetricVisMetric) (hx : x ∈ out) :
    (config.colorsRange.length ≤ 1 →
      x.color = none ∧ x.bgColor = none ∧ x.lightText = false)
    ∧ (x.color ≠ none → 1 < config.colorsRange.length ∧ config.style.labelColor = true)
    ∧ (x.bgColor ≠ none → 1 < config.colorsRange.length ∧ config.style.bgColor = true) := by
  unfold processTableGroups at h
  simp only [Option.bind_eq_some] at h
  obtain ⟨r0, hr0, rl, hrl, colors, hcolors, labels, hlabels, bucketInfo, hbi, hloop⟩ := h
  obtain ⟨metric, hmet, l, hl, hxl⟩ := metricsLoop_mem dims.metrics out hloop x hx
  obtain ⟨j, row, hrow, hg⟩ := rowsLoop_mem table.rows 0 l hl x hxl
  simp only [Option.map_eq_some'] at hg
  obtain ⟨column, hcol, hpr⟩ := hg
  subst hpr
  refine ⟨?_, ?_, ?_⟩
  · intro hle
    have hdec : decide (1 < config.colorsRange.length) = false :=
      decide_eq_false (Nat.not_lt.mpr hle)
    rw [processRow_color, processRow_bgColor, processRow_lightText, hdec]
    simp
  · intro hc
    rw [processRow_color] at hc
    cases hcond : (decide (1 < config.colorsRange.length) && config.style.labelColor) with
    | false => rw [hcond] at hc; simp at hc
    | true =>
      obtain ⟨h1, h2⟩ := Bool.and_eq_true_iff.mp hcond
      exact ⟨of_decide_eq_true h1, h2⟩
  · intro hc
    rw [processRow_bgColor] at hc
    cases hcond : (decide (1 < config.colorsRange.length) && config.style.bgColor) with
    | false => rw [hcond] at hc; simp at hc
    | true =>
      obtain ⟨h1, h2⟩ := Bool.and_eq_true_iff.mp hcond
      exact ⟨of_decide_eq_true h1, h2⟩

/-- Witness for C9 on the single-range configuration c9Config with both
style flags on: the produced descriptor has no colors and dark text. -/
theorem processTableGroups_color_gating_witness :
    c9Metric.color = none ∧ c9Metric.bgColor = none ∧ c9Metric.lightText = false := by
  have h : processTableGroups exHeat exDark exDz c9Config c6Dims c6Table = some c9Out := rfl
  exact (processTableGroups_color_gating exHeat exDark exDz c9Config c6Dims c6Table
    c9Out h c9Metric (by decide)).1 (by decide)

/-- C6 fails as stated: in percentage mode with the single range 0-10
(min 0, max 10) and row value 5, processTableGroups hands the 0-1 fraction
(5 - 0) / (10 - 0) = 1/2 to the field formatter, not the 0-100 rescaling
50; rendered through a formatter that prints the numeric argument it
receives, the descriptor reads "1/2" where the claim predicts "50". -/
theorem percentage_rescale_counterexample :
    (processTableGroups exHeat exDark exDz c6Config c6Dims c6Table).map
      (List.map MetricVisMetric.value) = some ["1/2"]
    ∧ toString ((100 : Rat) * (5 - 0) / (10 - 0)) = "50"
    ∧ ("1/2" : String) ≠ "50" := by
  refine ⟨by decide, by decide, by decide⟩

/-- C6 amended: in percentage mode the value handed to the field formatter
is the 0-1 fraction (value - min) / (max - min), with min the first range's
lower and max the last range's upper bound (the 0-100 presentation is left
to the percent-aware formatter); the degenerate case max = min stays
unguarded, the division then producing a non-finite JS number. -/
theorem percentage_rescale_amended (heatmap : Rat → String → String)
    (isColorDark : Nat → Nat → Nat → Bool)
    (deserialize : String → JNum → String → String)
    (config : MetricConfig) (dims : Dimensions) (table : TableT)
    (out : List MetricVisMetric)
    (hpm : config.percentageMode = true)
    (h : processTableGroups heatmap isColorDark deserialize config dims table = some out)
    (x : MetricVisMetric) (hx : x ∈ out) :
    ∃ metric r0 rl column row,
      metric ∈ dims.metrics
      ∧ config.colorsRange.head? = some r0
      ∧ config.colorsRange.getLast? = some rl
      ∧ table.columns.get? metric.accessor = some column
      ∧ row ∈ table.rows
      ∧ x.value = getFormattedValue (deserialize metric.format)
          (jdiv (jsub (row column.id) r0.frm) (rl.toV - r0.frm)) "html" := by
  unfold processTableGroups at h
  simp only [Option.bind_eq_some] at h
  obtain ⟨r0, hr0, rl, hrl, colors, hcolors, labels, hlabels, bucketInfo, hbi, hloop⟩ := h
  obtain ⟨metric, hmet, l, hl, hxl⟩ := metricsLoop_mem dims.metrics out hloop x hx
  obtain ⟨j, row, hrow, hg⟩ := rowsLoop_mem table.rows 0 l hl x hxl
  simp only [Option.map_eq_some'] at hg
  obtain ⟨column, hcol, hpr⟩ := hg
  refine ⟨metric, r0, rl, column, row, hmet, hr0, hrl, hcol, hrow, ?_⟩
  rw [← hpr, processRow_value, hpm]
  simp

/-- Witness for the amended C6 on the single-range percentage
configuration: the descriptor's rendered value is the formatted 0-1
fraction of its row value. -/
theorem percentage_rescale_amended_witness :
    ∃ metric r0 rl column row,
      metric ∈ c6Dims.metrics
      ∧ c6Config.colorsRange.head? = some r0
      ∧ c6Config.colorsRange.getLast? = some rl
      ∧ c6Table.columns.get? metric.accessor = some column
      ∧ row ∈ c6Table.rows
      ∧ (c6Out.headI).value = getFormattedValue (exDz metric.format)
          (jdiv (jsub (row column.id) r0.frm) (rl.toV - r0.frm)) "html" := by
  have h : processTableGroups exHeat exDark exDz c6Config c6Dims c6Table = some c6Out := rfl
  exact percentage_rescale_amended exHeat exDark exDz c6Config c6Dims c6Table c6Out
    rfl h c6Out.headI (by decide)

end MetricVisVerification
